import Mathlib

/-!
Verification development for the msft asynchronous runtime core.

Shallow embedding of:
- `crates/runtime/src/codec/lines.rs` (`LinesDecoder::decode`)
- `crates/runtime/src/io/drive.rs` (`ReadDriver`, `WriteDriver`)
- `crates/runtime/src/io/futures.rs` (`DecodeStream::poll_next`)
- `crates/runtime/src/work/mod.rs` (work-once pool)
- `crates/runtime/src/wait/mod.rs` (wait pool)
- `crates/service/src/device.rs` (plug-event tracker)

Bytes are modelled as `Nat` (values 0..255), buffers as `List Nat`; fallible or
panicking code paths are explicit constructors of outcome types.
-/

set_option autoImplicit false

namespace Msft

/-- A byte as read or written by the kernel. -/
abbrev Byte := Nat

/-- Embedding of the validity check of `str::from_utf8` (Rust core UTF-8
validation): returns `true` exactly when the byte sequence is well-formed
UTF-8. -/
def isUtf8Cont (b : Byte) : Bool := decide (0x80 ≤ b) && decide (b ≤ 0xBF)

/-- Well-formedness of a byte list as UTF-8, following the first-byte /
continuation-byte ranges of Rust's `core::str::from_utf8`. -/
def utf8Valid : List Byte → Bool
  | [] => true
  | b :: rest =>
    if b ≤ 0x7F then utf8Valid rest
    else if 0xC2 ≤ b ∧ b ≤ 0xDF then
      match rest with
      | b1 :: r => isUtf8Cont b1 && utf8Valid r
      | [] => false
    else if 0xE0 ≤ b ∧ b ≤ 0xEF then
      match rest with
      | b1 :: b2 :: r =>
        (if b = 0xE0 then decide (0xA0 ≤ b1) && decide (b1 ≤ 0xBF)
         else if b = 0xED then decide (0x80 ≤ b1) && decide (b1 ≤ 0x9F)
         else isUtf8Cont b1) && isUtf8Cont b2 && utf8Valid r
      | _ => false
    else if 0xF0 ≤ b ∧ b ≤ 0xF4 then
      match rest with
      | b1 :: b2 :: b3 :: r =>
        (if b = 0xF0 then decide (0x90 ≤ b1) && decide (b1 ≤ 0xBF)
         else if b = 0xF4 then decide (0x80 ≤ b1) && decide (b1 ≤ 0x8F)
         else isUtf8Cont b1) && isUtf8Cont b2 && isUtf8Cont b3 && utf8Valid r
      | _ => false
    else false

/-- ASCII bytes of `"hello\r\nwor"`, the first kernel completion of the
line-reader smoke scenario. -/
def chunkHelloWor : List Byte := [104, 101, 108, 108, 111, 13, 10, 119, 111, 114]

/-- ASCII bytes of `"ld\r\n"`, the second kernel completion of the line-reader
smoke scenario. -/
def chunkLd : List Byte := [108, 100, 13, 10]

namespace Lines

/-- State of `LinesDecoder`: `index` is the scan position remembered to avoid
re-scanning the buffer on each call to `decode`. -/
structure DecoderState where
  index : Nat
deriving DecidableEq, Repr

/-- `LinesDecoder::default()`. -/
def defaultState : DecoderState := ⟨0⟩

/-- The value part of one `decode` call: `Err(Utf8Error)`, `Ok(Some(item))`
(the item given by its UTF-8 bytes), or `Ok(None)`. -/
inductive DecodeValue where
  | utf8Error
  | item (content : List Byte)
  | pendingNone
deriving DecidableEq, Repr

/-- Outcome of `LinesDecoder::decode(&mut self, src)`: either the slice
expression `src[self.index..src.len()]` panics (when `index > len`), or the
call returns with an updated decoder state, an updated buffer, and a value. -/
inductive DecodeOutcome where
  | panicked
  | ret (d : DecoderState) (src : List Byte) (v : DecodeValue)
deriving DecidableEq, Repr

/-- `src[self.index..].iter().position(|b| *b == b'\n')`. -/
def findNewline : List Byte → Option Nat
  | [] => none
  | b :: rest => if b = 10 then some 0 else (findNewline rest).map (fun k => k + 1)

/-- Embedding of `LinesDecoder::decode` (codec/lines.rs). On a found newline
the line through the `0x0A` is removed via `split_to`; if the line is longer
than 2 bytes its content minus the last two bytes is returned through
`str::from_utf8`; otherwise `Ok(None)`. Note the source does not reset
`self.index` after a successful split. -/
def decode (d : DecoderState) (src : List Byte) : DecodeOutcome :=
  if d.index > src.length then .panicked
  else
    match findNewline (src.drop d.index) with
    | some offset =>
      let line := src.take (d.index + offset + 1)
      let rest := src.drop (d.index + offset + 1)
      if line.length > 2 then
        let content := line.take (line.length - 2)
        if utf8Valid content then .ret d rest (.item content)
        else .ret d rest .utf8Error
      else .ret d rest .pendingNone
    | none => .ret ⟨src.length⟩ src .pendingNone

end Lines

namespace ReadPath

open Lines

/-- One result pushed into the read driver's completion queue by the decode
drain loop: `Ok(item)` or `Err(StreamError::Decode(_))`. -/
inductive StreamItem where
  | ok (content : List Byte)
  | decodeErr
deriving DecidableEq, Repr

/-- Outcome of the drain loop
`while let Poll::Ready(result) = reader.decode()` in
`ReadDriver::completion`: the items pushed in order, and whether the loop
ended with `Poll::Pending`, panicked inside `decode`, or ran out of fuel
(the fuel supplied below always exceeds the buffer length, and each `Ready`
step removes at least one byte, so `fuelOut` is never reached). -/
inductive DrainOutcome where
  | drained (items : List StreamItem) (d : DecoderState) (buf : List Byte)
  | panicked (items : List StreamItem)
  | fuelOut (items : List StreamItem)
deriving DecidableEq, Repr

/-- Prepend an emitted item to a drain outcome. -/
def consItem (x : StreamItem) : DrainOutcome → DrainOutcome
  | .drained items d buf => .drained (x :: items) d buf
  | .panicked items => .panicked (x :: items)
  | .fuelOut items => .fuelOut (x :: items)

/-- The drain loop of `ReadDriver::completion`: call `decode` repeatedly,
pushing each `Ready` result, until `Poll::Pending`. -/
def drain : Nat → DecoderState → List Byte → DrainOutcome
  | 0, _, _ => .fuelOut []
  | fuel + 1, d, src =>
    match decode d src with
    | .panicked => .panicked []
    | .ret d1 src1 .pendingNone => .drained [] d1 src1
    | .ret d1 src1 (.item s) => consItem (.ok s) (drain fuel d1 src1)
    | .ret d1 src1 .utf8Error => consItem .decodeErr (drain fuel d1 src1)

/-- One successful `ReadDriver::completion(ERROR_SUCCESS, n)` delivering a
chunk: `fs::read::read_overlapped` had the kernel write the chunk at the
buffer view's start (`bytes.as_mut_ptr()`), and `Reader::completion` runs
`self.buf.set_len(bytes_transferred)`, so the buffer's logical content
becomes exactly the delivered chunk (any unconsumed remainder is
overwritten); then the drain loop runs. Only the decoder state survives
from the previous completion. -/
def completionStep (d : DecoderState) (chunk : List Byte) : DrainOutcome :=
  drain (chunk.length + 1) d chunk

/-- Accumulated outcome of feeding a sequence of chunks through the
completion path. -/
inductive RunOutcome where
  | ok (items : List StreamItem)
  | panicked (items : List StreamItem)
  | fuelOut (items : List StreamItem)
deriving DecidableEq, Repr

/-- Prepend the items of one completion to a run outcome. -/
def consItems (xs : List StreamItem) : RunOutcome → RunOutcome
  | .ok items => .ok (xs ++ items)
  | .panicked items => .panicked (xs ++ items)
  | .fuelOut items => .fuelOut (xs ++ items)

/-- Feed each chunk through `ReadDriver::completion` in order, starting from
the given decoder state, collecting every result pushed to the completion
queue. -/
def runChunks : DecoderState → List (List Byte) → RunOutcome
  | _, [] => .ok []
  | d, c :: cs =>
    match completionStep d c with
    | .drained items d1 _ => consItems items (runChunks d1 cs)
    | .panicked items => .panicked items
    | .fuelOut items => .fuelOut items

/-- `decode_all(B)`: the items produced when the whole byte sequence is
delivered as a single chunk to a fresh decoder. -/
def decodeAll (b : List Byte) : RunOutcome := runChunks Lines.defaultState [b]

end ReadPath

namespace Queue

/-- Embedding of `io/overlapped.rs` `OverlappedError` (the `CustomIo` payload
is irrelevant to control flow and omitted). -/
inductive OverlappedError where
  | os (code : Int)
  | customIo
  | pending
  | eof
deriving DecidableEq, Repr

/-- Embedding of `io/error.rs` `StreamError<E>` with the decoder item type
abstract; decode errors carry no payload here. -/
inductive StreamError where
  | overlapped (e : OverlappedError)
  | decode
  | queueFull
deriving DecidableEq, Repr

/-- An entry of the read driver's completion queue:
`Result<D::Item, StreamError<D::Error>>`. -/
inductive QueueItem (ι : Type) where
  | ok (item : ι)
  | err (e : StreamError)
deriving DecidableEq, Repr

/-- Embedding of `crossbeam::queue::ArrayQueue`: a bounded FIFO whose
elements are listed front (oldest) first. -/
structure ArrayQueue (α : Type) where
  capacity : Nat
  items : List α
deriving DecidableEq, Repr

/-- `ArrayQueue::new(cap)`. -/
def ArrayQueue.new (α : Type) (cap : Nat) : ArrayQueue α := ⟨cap, []⟩

/-- `ArrayQueue::force_push`: pushes to the back, displacing the oldest
element when the queue is full. -/
def ArrayQueue.forcePush {α : Type} (q : ArrayQueue α) (a : α) : ArrayQueue α :=
  if q.items.length < q.capacity then ⟨q.capacity, q.items ++ [a]⟩
  else ⟨q.capacity, q.items.tail ++ [a]⟩

/-- `ArrayQueue::pop`: removes and returns the front (oldest) element. -/
def ArrayQueue.pop {α : Type} (q : ArrayQueue α) : Option α × ArrayQueue α :=
  match q.items with
  | [] => (none, q)
  | x :: xs => (some x, ⟨q.capacity, xs⟩)

/-- Embedding of `ReadDriver::wake_with_result` (io/drive.rs): force-push the
result; the `QueueFull` sentinel is force-pushed only when the queue's total
capacity equals 1 (the waker side effect does not change the queue). -/
def wakeWithResult {ι : Type} (q : ArrayQueue (QueueItem ι)) (r : QueueItem ι) :
    ArrayQueue (QueueItem ι) :=
  let q1 := q.forcePush r
  if q1.capacity = 1 then q1.forcePush (.err .queueFull) else q1

/-- What one call to `DecodeStream::poll_next` (io/futures.rs) lets the
consumer observe: an item or error, end of stream, or `Poll::Pending`. -/
inductive StreamObservation (ι : Type) where
  | readyItem (item : ι)
  | readyErr (e : StreamError)
  | readyEnd
  | pendingPoll
deriving DecidableEq, Repr

/-- Embedding of `ReadDriver::poll_next` composed with `DecodeStream::poll_next`:
pop one queue entry; an `Eof` overlapped error or a `QueueFull` error ends the
stream (`DecodeStream` maps the `QueueFull` item itself to `Ready(None)`). -/
def streamPollNext {ι : Type} (q : ArrayQueue (QueueItem ι)) :
    StreamObservation ι × ArrayQueue (QueueItem ι) :=
  match q.pop with
  | (none, q1) => (.pendingPoll, q1)
  | (some (.err (.overlapped .eof)), q1) => (.readyEnd, q1)
  | (some (.err .queueFull), q1) => (.readyEnd, q1)
  | (some (.err e), q1) => (.readyErr e, q1)
  | (some (.ok item), q1) => (.readyItem item, q1)

/-- Poll the decode stream `n` times in sequence, collecting the
observations. -/
def pollTimes {ι : Type} (q : ArrayQueue (QueueItem ι)) :
    Nat → List (StreamObservation ι)
  | 0 => []
  | n + 1 =>
    let (obs, q1) := streamPollNext q
    obs :: pollTimes q1 n

end Queue

namespace WriteDrv

/-- A `BytesMut` buffer: a view with a total capacity and its initialised
content. `cap` is `capacity()`, `data.length` is `len()`. -/
structure BufM where
  cap : Nat
  data : List Byte
deriving DecidableEq, Repr

/-- Embedding of `io/error.rs` `SinkError`. -/
inductive SinkError where
  | overlapped (e : Queue.OverlappedError)
  | cancelled
  | bufferFull
deriving DecidableEq, Repr

deriving instance DecidableEq for Except

/-- Embedding of the `WriteState` enum of io/drive.rs. The waker is opaque. -/
inductive WriteState where
  | inert
  | writing (waker : Option Unit) (bytes : BufM)
  | flushing (waker : Option Unit) (bytes : BufM)
  | complete (waker : Option Unit) (result : Except SinkError Unit)
deriving DecidableEq, Repr

/-- `BytesMut::advance(n)`: the view loses its first `n` bytes (both length
and capacity shrink). -/
def advance (b : BufM) (n : Nat) : BufM := ⟨b.cap - n, b.data.drop n⟩

/-- Behaviour of one synchronous `write_overlapped` attempt by the handle:
`Ok(n)` (the kernel accepts at most the offered buffer length, so an offer
`o` writes `min o len`), `Err(Pending)`, or `Err(Os(code))`. -/
inductive WriteAttempt where
  | sync (o : Nat)
  | pending
  | osErr (code : Int)
deriving DecidableEq, Repr

/-- A write attempt that makes positive progress whenever bytes remain:
a synchronous acceptance of at least one byte, or a pending hand-off. -/
def goodAttempt : WriteAttempt → Bool
  | .sync o => decide (1 ≤ o)
  | .pending => true
  | .osErr _ => false

/-- A kernel completion event for an asynchronous write:
`(ERROR_SUCCESS, n)` (again clipped to the outstanding length) or a failed
status code. -/
inductive CompEvent where
  | success (o : Nat)
  | failure (code : Int)
deriving DecidableEq, Repr

/-- A completion that delivered at least one byte. -/
def goodComp : CompEvent → Bool
  | .success o => decide (1 ≤ o)
  | .failure _ => false

/-- Result of `WriteDriver::flush`: the state it leaves behind, the next
unconsumed schedule index, and the bytes delivered synchronously during the
flush loop. -/
inductive FlushOut where
  | done (st : WriteState) (nextIdx : Nat) (delivered : Nat)
  | fuelOut
deriving DecidableEq, Repr

/-- Embedding of the loop of `WriteDriver::flush` (io/drive.rs): issue
writes until the buffer drains (`Complete(Ok)`), the kernel reports pending
(`Flushing`), or an error (`Complete(Err)`). `sched i` is the outcome of the
i-th synchronous attempt. Fuel exceeding the buffer length is always enough
when every attempt is `good`. -/
def flush (sched : Nat → WriteAttempt) : Nat → Nat → Option Unit → BufM → FlushOut
  | 0, _, _, _ => .fuelOut
  | fuel + 1, i, waker, bytes =>
    match sched i with
    | .pending => .done (.flushing waker bytes) (i + 1) 0
    | .osErr code => .done (.complete waker (.error (.overlapped (.os code)))) (i + 1) 0
    | .sync o =>
      let n := min o bytes.data.length
      let bytes1 := advance bytes n
      if bytes1.data.length = 0 then .done (.complete waker (.ok ())) (i + 1) n
      else
        match flush sched fuel (i + 1) waker bytes1 with
        | .done st j d => .done st j (n + d)
        | .fuelOut => .fuelOut

/-- Final outcome of a full buffered write: the stored `Complete` result and
the total bytes the kernel reported written; a self-deadlock of the
completion callback (see `completion`); a panic (`completion` entered from
`Inert`/`Complete`); or fuel exhaustion of the flush loop. -/
inductive DriveOut where
  | done (result : Except SinkError Unit) (delivered : Nat)
  | deadlock (delivered : Nat)
  | panicked
  | fuelOut
deriving DecidableEq, Repr

/-- Outcome of one `WriteDriver::completion` callback: the state is left
`Complete(waker, result)` with `delivered` bytes newly reported by the
kernel, or the callback self-deadlocks with `delivered` bytes reported (see
`completion`), or it panics (entered from `Inert`/`Complete`). -/
inductive CompletionOut where
  | completed (waker : Option Unit) (result : Except SinkError Unit) (delivered : Nat)
  | deadlock (delivered : Nat)
  | panicked
deriving DecidableEq, Repr

/-- Embedding of `WriteDriver::completion(io_result, bytes_transferred)`
(io/drive.rs). The state is `mem::replace`d with `Inert` under the state
lock; entry from `Inert`/`Complete` panics. From `Writing`/`Flushing`, on
`ERROR_SUCCESS` the buffer advances by the bytes the kernel reports (at
most the outstanding length); if no bytes remain, `wake_with_result(Ok)`
leaves `Complete(Ok)`. If bytes DO remain, the source calls
`self.flush(pool)` while `completion`'s own guard on the non-reentrant
`parking_lot` state mutex is still live, so the callback thread
self-deadlocks re-locking `self.state` (and the state it would read is the
replaced `Inert`, `flush`'s panic case, were the lock re-entrant): the
remaining bytes are never reissued. A failed status stores the OS error. -/
def completion (ev : CompEvent) (st : WriteState) : CompletionOut :=
  match st with
  | .inert => .panicked
  | .complete _ _ => .panicked
  | .writing waker bytes | .flushing waker bytes =>
    match ev with
    | .failure code => .completed waker (.error (.overlapped (.os code))) 0
    | .success o =>
      let n := min o bytes.data.length
      if (advance bytes n).data.length = 0 then .completed waker (.ok ()) n
      else .deadlock n

/-- A complete buffered write cycle: `buffer(bytes)` installs
`Writing(None, bytes)` and `flush` runs in user context; if the flush went
pending, the single kernel completion event `comp` fires on the `Flushing`
state. A completion that leaves bytes outstanding self-deadlocks (see
`completion`), so no further flush or completion ever runs. -/
def driveWrite (sched : Nat → WriteAttempt) (comp : CompEvent) (bytes : BufM) : DriveOut :=
  match flush sched (bytes.data.length + 1) 0 none bytes with
  | .fuelOut => .fuelOut
  | .done st _ d =>
    match st with
    | .complete _ r => .done r d
    | .flushing waker bytes1 =>
      match completion comp (.flushing waker bytes1) with
      | .completed _ r n => .done r (d + n)
      | .deadlock n => .deadlock (d + n)
      | .panicked => .panicked
    | .inert => .panicked
    | .writing _ _ => .panicked

/-- An encodable item as `push_encodable` sees it: its advertised
`sink_encode_len()`, the bytes `sink_encode` would append, and whether the
encode call succeeds. -/
structure EncItem where
  encLen : Nat
  payload : List Byte
  encodeOk : Bool
deriving DecidableEq, Repr

/-- Embedding of `io/error.rs` `SinkEncodeError<E>`. -/
inductive SinkEncodeError where
  | encode
  | bufferFull
deriving DecidableEq, Repr

/-- Outcome of `WriteDriver::push_encodable`. -/
inductive PushOutcome where
  | panicked
  | okSt (st : WriteState)
  | err (e : SinkEncodeError)
deriving DecidableEq, Repr

/-- Embedding of `WriteDriver::push_encodable` (io/drive.rs): panics outside
`Writing`; in `Writing` the item encodes only when
`sink_encode_len() < capacity() - len()` (note the strict inequality),
otherwise `BufferFull`. -/
def pushEncodable (st : WriteState) (item : EncItem) : PushOutcome :=
  match st with
  | .inert => .panicked
  | .flushing _ _ => .panicked
  | .complete _ _ => .panicked
  | .writing w bytes =>
    if item.encLen < bytes.cap - bytes.data.length then
      if item.encodeOk then .okSt (.writing w ⟨bytes.cap, bytes.data ++ item.payload⟩)
      else .err .encode
    else .err .bufferFull

end WriteDrv

namespace Work

/-- `Poll` as observed by a consumer of `WorkOnceFuture`. -/
inductive Poll (α : Type) where
  | ready (a : α)
  | pendingPoll
deriving DecidableEq, Repr

/-- Embedding of the `Oneshot<W>` cell of work/mod.rs: `inner` is the
`UnsafeCell<Option<W>>` holding the not-yet-run closure (its behaviour is
abstracted to the output it would produce), and the mutex-guarded shared
state holds an opaque waker slot and the result slot. -/
structure Oneshot (O : Type) where
  inner : Option Unit
  waker : Option Unit
  result : Option O
deriving DecidableEq, Repr

/-- `Oneshot::new(work)`: closure present, no waker, no result. -/
def Oneshot.new (O : Type) : Oneshot O := ⟨some (), none, none⟩

/-- Outcome of the worker callback: it `take`s the closure via
`Oneshot::take`, which hits `unreachable!` (a panic) when the closure has
already been taken. -/
inductive CallbackOutcome (O : Type) where
  | ran (w : Oneshot O)
  | panicked
deriving DecidableEq, Repr

/-- Embedding of `work_once_callback` running to completion: `take` the
closure (panicking if it is gone) and store its output `real` in the result
slot, waking (and taking) any waker. -/
def callbackRun {O : Type} (w : Oneshot O) (real : O) : CallbackOutcome O :=
  match w.inner with
  | none => .panicked
  | some _ => .ran { inner := none, waker := none, result := some real }

/-- Embedding of `WorkOncePoolGuard::cancel_with(result)` after
`wait(Cancel)` has quiesced the callback: `try_take` the closure (dropping
it if it never ran) and unconditionally store the supplied result, waking
(and taking) any waker. Nothing of the prior shared state survives: an
unconsumed closure result in the result slot is overwritten. -/
def cancelWith {O : Type} (_w : Oneshot O) (x : O) : Oneshot O :=
  { inner := none, waker := none, result := some x }

/-- Embedding of `WorkOnceFuture::poll`: `take` the result slot; if a result
was present return `Ready` with it, otherwise install the waker and return
`Pending`. -/
def pollOnce {O : Type} (w : Oneshot O) : Poll O × Oneshot O :=
  match w.result with
  | some r => (.ready r, { w with result := none })
  | none => (.pendingPoll, { w with waker := some () })

end Work

namespace Wait

/-- Embedding of `wait/mod.rs` `WaitError`. -/
inductive WaitError where
  | cancelled
  | timeout
  | inProgress
deriving DecidableEq, Repr

/-- `WaitResult = Result<(), WaitError>`. -/
abbrev WaitResult := Except WaitError Unit

/-- The mutex-guarded `Shared` state of the wait pool. -/
structure Shared where
  waker : Option Unit
  result : Option WaitResult
deriving DecidableEq, Repr

/-- A `WaitPool`: the OS wait registration is opaque; `started` is the
double-start latch. -/
structure WaitPool where
  started : Bool
  shared : Shared
deriving DecidableEq, Repr

/-- `WaitPool::new()`. -/
def WaitPool.new : WaitPool := ⟨false, ⟨none, none⟩⟩

/-- Outcome of `WaitPool::start`: a future sharing the pool state, or the
double-start panic. -/
inductive StartOutcome where
  | ok (p : WaitPool)
  | panicked
deriving DecidableEq, Repr

/-- Embedding of `WaitPool::start` (wait/mod.rs): sets the `started` latch
and begins the OS wait, or panics when already started. -/
def start (p : WaitPool) : StartOutcome :=
  if !p.started then .ok { p with started := true } else .panicked

/-- Embedding of `WaitPool::restart`: `shared.result.take().ok_or(InProgress)?`
— errors when no result is stored, otherwise consumes the stored result and
begins a new OS wait. -/
def restart (p : WaitPool) : Except WaitError WaitPool :=
  match p.shared.result with
  | none => .error .inProgress
  | some _ => .ok { p with shared := { p.shared with result := none } }

/-- Embedding of `Shared::maybe_wake_with`: `result.replace(result)`; if a
result was already stored it is put back (state unchanged), otherwise the
new result stays and the waker is taken and woken. -/
def maybeWakeWith (s : Shared) (r : WaitResult) : Shared :=
  match s.result with
  | some old => { s with result := some old }
  | none => { waker := none, result := some r }

/-- Embedding of `WaitPool::cancel`: stop the OS wait (opaque) and
`maybe_wake_with(Err(Cancelled))`. -/
def cancel (p : WaitPool) : WaitPool :=
  { p with shared := maybeWakeWith p.shared (.error .cancelled) }

/-- Embedding of the wait callback storing `Ok(signalled)` or
`Err(Timeout)`; the waker is woken by reference and left in place. -/
def waitCallback (s : Shared) (signalled : Bool) : Shared :=
  { s with result := some (if signalled then .ok () else .error .timeout) }

/-- Embedding of `WaitFuture::poll`: a stored result is returned `Ready`
(the result slot is NOT cleared; the waker is taken), otherwise the waker is
installed and the poll is `Pending`. -/
def pollWait (s : Shared) : Work.Poll WaitResult × Shared :=
  match s.result with
  | some r => (.ready r, { s with waker := none })
  | none => (.pendingPoll, { s with waker := some () })

end Wait

namespace Device

/-- A COM port name (`OsString`). -/
abbrev Port := String

/-- Vendor/product identifier pair (`UsbVidPid`): two 16-bit values. -/
structure UsbVidPid where
  vid : Nat
  pid : Nat
deriving DecidableEq, Repr

/-- Embedding of `PlugEvent` (service/src/device.rs). -/
inductive PlugEvent where
  | plug (port : Port)
  | unplug (port : Port)
deriving DecidableEq, Repr

/-- The tracker state of `Tracking::Streaming`: the configured filter list
`ids`, the `port → sender` cache (an association list with at most one entry
per port, mirroring `HashMap`), and a fresh-channel counter naming the
one-shot channels `TrackedPort::track` allocates in order. -/
structure TrackState where
  ids : List UsbVidPid
  cache : List (Port × Nat)
  nextChan : Nat
deriving DecidableEq, Repr

/-- Initial tracker state for filter set `ids` (`DeviceStreamExt::track`). -/
def TrackState.init (ids : List UsbVidPid) : TrackState := ⟨ids, [], 0⟩

/-- `HashMap::insert`: replaces any existing entry for the key. -/
def cacheInsert (cache : List (Port × Nat)) (p : Port) (c : Nat) : List (Port × Nat) :=
  (p, c) :: cache.filter (fun e => ¬ e.1 = p)

/-- `HashMap::remove` returning the removed value. -/
def cacheRemove (cache : List (Port × Nat)) (p : Port) :
    Option Nat × List (Port × Nat) :=
  match cache.find? (fun e => e.1 = p) with
  | none => (none, cache)
  | some e => (some e.2, cache.filter (fun e1 => ¬ e1.1 = p))

/-- Everything the tracker makes observable while processing one upstream
event: a `Ready(Some(Ok(TrackedPort)))` emission carrying the port, the
matched VID/PID and the channel of its `unplugged` future; a
`Ready(Some(Err(_)))` emission; or the `sender.set()` resolving the
`unplugged` future of channel `chan`. -/
inductive TrackOutput where
  | emit (port : Port) (ids : UsbVidPid) (chan : Nat)
  | emitErr
  | signal (chan : Nat)
deriving DecidableEq, Repr

/-- Embedding of one iteration of `Tracking::poll_next` (service/src/device.rs)
on an upstream event. `scan` stands for the registry scan `scan_for`; channel
creation in `TrackedPort::track` is modelled as always succeeding, and so is
`Sender::set`. On `Plug`: scan, filter by `ids`, allocate a channel and cache
its sender, emit the `TrackedPort`. On `Unplug`: remove and signal the cached
sender, or warn (no output) when untracked. -/
def trackStep (scan : Port → Except Unit UsbVidPid) (st : TrackState) (ev : PlugEvent) :
    TrackState × List TrackOutput :=
  match ev with
  | .plug port =>
    match scan port with
    | .error _ => (st, [.emitErr])
    | .ok id =>
      match st.ids.find? (fun t => t = id) with
      | none => (st, [])
      | some idF =>
        let chan := st.nextChan
        ({ st with cache := cacheInsert st.cache port chan, nextChan := chan + 1 },
          [.emit port idF chan])
  | .unplug port =>
    match cacheRemove st.cache port with
    | (none, _) => (st, [])
    | (some chan, cache1) => ({ st with cache := cache1 }, [.signal chan])

/-- Fold the tracker over a finite upstream event sequence, collecting every
observable output in order. -/
def runTrack (scan : Port → Except Unit UsbVidPid) :
    TrackState → List PlugEvent → TrackState × List TrackOutput
  | st, [] => (st, [])
  | st, ev :: evs =>
    let (st1, outs) := trackStep scan st ev
    let (st2, rest) := runTrack scan st1 evs
    (st2, outs ++ rest)

/-- The `(port, vid/pid)` of an emitted `TrackedPort`, if the output is one. -/
def emitProj : TrackOutput → Option (Port × UsbVidPid)
  | .emit p i _ => some (p, i)
  | _ => none

/-- The `(port, vid/pid)` a `Plug` event should yield under filter set `ids`:
`some` exactly when the scanned VID/PID of a plugged port is in the filter
set. -/
def plugProj (scan : Port → Except Unit UsbVidPid) (ids : List UsbVidPid) :
    PlugEvent → Option (Port × UsbVidPid)
  | .plug port =>
    match scan port with
    | .error _ => none
    | .ok id => if id ∈ ids then some (port, id) else none
  | .unplug _ => none

/-- Number of `signal chan` outputs for a given channel. -/
def countSignal (chan : Nat) (outs : List TrackOutput) : Nat :=
  (outs.filter (fun o => o = .signal chan)).length

/-- Number of cache entries holding a given channel. -/
def countCache (chan : Nat) (st : TrackState) : Nat :=
  ((st.cache.map (fun e => e.2)).filter (fun c => c = chan)).length

/-- The channels currently cached (the senders the tracker still holds). -/
def chanValues (st : TrackState) : List Nat := st.cache.map (fun e => e.2)

/-- Invariant of the tracker run tying the state to the outputs produced so
far: cached channels are distinct and below the allocation counter; no
channel is ever signalled twice; a signalled channel is gone from the cache
and below the counter; and every cached or signalled channel was emitted
inside some `TrackedPort`. -/
def TrackInv (st : TrackState) (outs : List TrackOutput) : Prop :=
  (chanValues st).Nodup ∧
  (∀ c ∈ chanValues st, c < st.nextChan) ∧
  (∀ c, countSignal c outs ≤ 1) ∧
  (∀ c, 0 < countSignal c outs → c < st.nextChan ∧ c ∉ chanValues st) ∧
  (∀ c, c ∈ chanValues st → ∃ p i, TrackOutput.emit p i c ∈ outs) ∧
  (∀ c, 0 < countSignal c outs → ∃ p i, TrackOutput.emit p i c ∈ outs)

end Device

/-! ## Theorems -/

namespace WriteDrv

theorem advance_length (b : BufM) (n : Nat) :
    (advance b n).data.length = b.data.length - n := by
  simp [advance]

theorem flush_good (sched : Nat → WriteAttempt)
    (hs : ∀ k, goodAttempt (sched k) = true) :
    ∀ (fuel i : Nat) (waker : Option Unit) (bytes : BufM),
      bytes.data.length < fuel →
      ∃ st j d, flush sched fuel i waker bytes = .done st j d ∧
        ((st = .complete waker (.ok ()) ∧ d = bytes.data.length) ∨
         (∃ bytes1 : BufM, st = .flushing waker bytes1 ∧
           d + bytes1.data.length = bytes.data.length)) := by
  intro fuel
  induction fuel with
  | zero => intro i waker bytes h; omega
  | succ fuel ih =>
    intro i waker bytes h
    have hgi := hs i
    match hsched : sched i with
    | .pending =>
      refine ⟨.flushing waker bytes, i + 1, 0, ?_, .inr ⟨bytes, rfl, by omega⟩⟩
      simp [flush, hsched]
    | .osErr code => rw [hsched] at hgi; simp [goodAttempt] at hgi
    | .sync o =>
      rw [hsched] at hgi
      have ho : 1 ≤ o := by simpa [goodAttempt] using hgi
      have hlen := advance_length bytes (min o bytes.data.length)
      by_cases hz : (advance bytes (min o bytes.data.length)).data.length = 0
      · refine ⟨.complete waker (.ok ()), i + 1, min o bytes.data.length, ?_,
          .inl ⟨rfl, ?_⟩⟩
        · simp [flush, hsched, hz]
        · omega
      · have hlt : (advance bytes (min o bytes.data.length)).data.length < fuel := by
          rw [hlen] at hz ⊢
          omega
        obtain ⟨st, j, d, heq, hcase⟩ := ih (i + 1) waker _ hlt
        refine ⟨st, j, min o bytes.data.length + d, ?_, ?_⟩
        · simp [flush, hsched, hz, heq]
        · rcases hcase with ⟨hst, hd⟩ | ⟨bytes1, hst, hd⟩
          · exact .inl ⟨hst, by omega⟩
          · exact .inr ⟨bytes1, hst, by omega⟩

end WriteDrv

/-- C1. Decoder resumability fails on the code: feeding the byte sequence
`"hello\r\nwor" ++ "ld\r\n"` through the completion path in two chunks
yields the items `"hello"`, `"ld"` and then a panic inside
`LinesDecoder::decode` (its remembered scan index 3 exceeds the emptied
buffer), whereas delivering the same bytes as one chunk (`decode_all`)
yields `"hello"`, `"world"`: the two item sequences differ, because each
completion overwrites the unconsumed buffer remainder (`set_len` after the
kernel wrote at the view start) and the decoder never resets its index. -/
theorem c1_chunked_decode_diverges_from_decode_all :
    ReadPath.runChunks Lines.defaultState [chunkHelloWor, chunkLd]
      = .panicked [.ok [104, 101, 108, 108, 111], .ok [108, 100]]
    ∧ ReadPath.decodeAll (chunkHelloWor ++ chunkLd)
      = .ok [.ok [104, 101, 108, 108, 111], .ok [119, 111, 114, 108, 100]]
    ∧ ReadPath.runChunks Lines.defaultState [chunkHelloWor, chunkLd]
      ≠ ReadPath.decodeAll (chunkHelloWor ++ chunkLd) := by
  refine ⟨by decide, by decide, by decide⟩

/-- C2. Completion-queue overflow discipline fails on the code: with queue
capacity 2, pushing three items through `ReadDriver::wake_with_result`
leaves the queue holding the second and third items only — the first item
is silently displaced by `force_push` and no `QueueFull` sentinel is ever
queued (the sentinel branch tests `capacity() == 1`, dead under the
driver's own `debug_assert!(capacity > 1)`); the consumer then observes the
two surviving items and `Pending`, never a `QueueFull` followed by stream
end. -/
theorem c2_overflow_loses_item_without_queuefull :
    Queue.wakeWithResult (Queue.wakeWithResult (Queue.wakeWithResult
        (Queue.ArrayQueue.new (Queue.QueueItem Nat) 2) (.ok 1)) (.ok 2)) (.ok 3)
      = ⟨2, [.ok 2, .ok 3]⟩
    ∧ (Queue.QueueItem.err .queueFull) ∉ (Queue.wakeWithResult (Queue.wakeWithResult
        (Queue.wakeWithResult (Queue.ArrayQueue.new (Queue.QueueItem Nat) 2)
          (.ok 1)) (.ok 2)) (.ok 3)).items
    ∧ Queue.pollTimes (Queue.wakeWithResult (Queue.wakeWithResult
        (Queue.wakeWithResult (Queue.ArrayQueue.new (Queue.QueueItem Nat) 2)
          (.ok 1)) (.ok 2)) (.ok 3)) 3
      = [.readyItem 2, .readyItem 3, .pendingPoll] := by
  refine ⟨by decide, by decide, by decide⟩

/-- C3. Write-side correctness fails on the code for partial completions:
a 2-byte buffered write (within capacity 8) whose first kernel attempt goes
pending and whose completion reports 1 byte — a positive per-step
acceptance, exactly what the claim permits — ends with the driver
self-deadlocked (the completion re-enters `flush` under its own held state
lock, with the state already replaced to `Inert`) after only 1 of the 2
bytes was delivered, never reaching `Complete(Ok)`. The same write does
deliver both bytes and complete `Ok` when the kernel accepts synchronously,
or when the single completion reports all remaining bytes. -/
theorem c3_partial_completion_deadlocks :
    WriteDrv.driveWrite (fun _ => WriteDrv.WriteAttempt.pending)
      (WriteDrv.CompEvent.success 1) ⟨8, [1, 2]⟩ = .deadlock 1
    ∧ WriteDrv.goodComp (WriteDrv.CompEvent.success 1) = true
    ∧ WriteDrv.driveWrite (fun _ => WriteDrv.WriteAttempt.pending)
        (WriteDrv.CompEvent.success 1) ⟨8, [1, 2]⟩ ≠ .done (.ok ()) 2
    ∧ WriteDrv.driveWrite (fun _ => WriteDrv.WriteAttempt.sync 3)
        (WriteDrv.CompEvent.success 1) ⟨8, [1, 2]⟩ = .done (.ok ()) 2
    ∧ WriteDrv.driveWrite (fun _ => WriteDrv.WriteAttempt.pending)
        (WriteDrv.CompEvent.success 2) ⟨8, [1, 2]⟩ = .done (.ok ()) 2 := by
  refine ⟨by decide, by decide, by decide, by decide, by decide⟩

theorem findNewline_append (pre post : List Byte) (hpre : ∀ x ∈ pre, x ≠ 10) :
    Lines.findNewline (pre ++ 10 :: post) = some pre.length := by
  induction pre with
  | nil => simp [Lines.findNewline]
  | cons b bs ih =>
    have hb : b ≠ 10 := hpre b (by simp)
    simp [Lines.findNewline, hb, ih (fun x hx => hpre x (by simp [hx]))]

/-- C4 counterexample. The claim says a buffer containing `0x0A` always
yields the preceding slice as an item, but for the two-byte line `"a\n"`
the code removes the line and returns `Ok(None)` — no item at all
(`line.len() > 2` fails). -/
theorem c4_short_line_consumed_without_item :
    (10 ∈ [97, 10])
    ∧ Lines.decode Lines.defaultState [97, 10]
      = .ret Lines.defaultState [] .pendingNone
    ∧ (∀ v, Lines.decode Lines.defaultState [97, 10]
        ≠ .ret Lines.defaultState [] (.item v)) := by
  refine ⟨by decide, by decide, fun v => ?_⟩
  intro h
  rw [show Lines.decode Lines.defaultState [97, 10]
      = .ret Lines.defaultState [] .pendingNone from by decide] at h
  exact Lines.DecodeValue.noConfusion (Lines.DecodeOutcome.ret.inj h).2.2

/-- C4 as amended: on a fresh decoder whose buffer is `pre ++ 0x0A :: post`
with no `0x0A` in `pre`, `decode` always removes the line through the
`0x0A` (the buffer becomes `post`); when the line is at least 3 bytes long
(`pre.length ≥ 2`) it returns `pre` minus its final byte as the item if
those bytes are valid UTF-8 and a decode error otherwise; when the line is
at most 2 bytes long it returns no item (`Ok(None)`). -/
theorem c4_line_decode_first_newline (pre post : List Byte)
    (hpre : ∀ x ∈ pre, x ≠ 10) :
    (2 ≤ pre.length → utf8Valid pre.dropLast = true →
      Lines.decode Lines.defaultState (pre ++ 10 :: post)
        = .ret Lines.defaultState post (.item pre.dropLast))
    ∧ (2 ≤ pre.length → utf8Valid pre.dropLast = false →
      Lines.decode Lines.defaultState (pre ++ 10 :: post)
        = .ret Lines.defaultState post .utf8Error)
    ∧ (pre.length ≤ 1 →
      Lines.decode Lines.defaultState (pre ++ 10 :: post)
        = .ret Lines.defaultState post .pendingNone) := by
  have hfind := findNewline_append pre post hpre
  have hline : (pre ++ 10 :: post).take (pre.length + 1) = pre ++ [10] := by
    rw [List.take_append_eq_append_take]
    simp
  have hrest : (pre ++ 10 :: post).drop (pre.length + 1) = post := by
    rw [List.drop_append_eq_append_drop]
    simp
  have hcontent : (pre ++ [10]).take ((pre ++ [10]).length - 2) = pre.dropLast := by
    have hlen : (pre ++ [10]).length = pre.length + 1 := by simp
    rw [hlen, List.take_append_eq_append_take]
    have h1 : pre.length + 1 - 2 = pre.length - 1 := by omega
    rw [h1]
    have h2 : pre.length - 1 - pre.length = 0 := by omega
    rw [h2]
    simp [List.dropLast_eq_take]
  have hbody : Lines.decode Lines.defaultState (pre ++ 10 :: post)
      = (if (pre ++ [10]).length > 2 then
          (if utf8Valid ((pre ++ [10]).take ((pre ++ [10]).length - 2))
           then .ret Lines.defaultState post
             (.item ((pre ++ [10]).take ((pre ++ [10]).length - 2)))
           else .ret Lines.defaultState post .utf8Error)
         else .ret Lines.defaultState post .pendingNone) := by
    simp only [Lines.decode, Lines.defaultState, List.drop_zero, hfind]
    rw [if_neg (by omega)]
    simp only [Nat.zero_add, hline, hrest]
  rw [hbody, hcontent]
  have hlen : (pre ++ [10]).length = pre.length + 1 := by simp
  refine ⟨fun h2 hu => ?_, fun h2 hu => ?_, fun h1 => ?_⟩
  · rw [if_pos (by omega), if_pos hu]
  · rw [if_pos (by omega), if_neg (by simp [hu])]
  · rw [if_neg (by simp; omega)]

/-- Witness for C4 (amended) at the concrete buffer `"a\r\nb"`: the line
`"a\r\n"` is removed, leaving `"b"`, and the item is `"a"` (the `\r` and
`\n` are trimmed). -/
theorem c4_line_decode_first_newline_witness :
    Lines.decode Lines.defaultState ([97, 13] ++ 10 :: [98])
      = .ret Lines.defaultState [98] (.item ([97, 13].dropLast)) :=
  (c4_line_decode_first_newline [97, 13] [98] (by decide)).1 (by decide) (by decide)

/-- C5 counterexample. With capacity 4, an empty buffer and an item of
encoded length 4 (`encoded_len + used = capacity`, the exact-fill case the
claim says must succeed), `push_encodable` fails with `BufferFull`: the code
requires `sink_encode_len() < capacity() - len()` strictly. -/
theorem c5_exact_fill_rejected :
    (4 + (0 : Nat) ≤ 4)
    ∧ WriteDrv.pushEncodable (.writing none ⟨4, []⟩) ⟨4, [9, 9, 9, 9], true⟩
      = .err .bufferFull := by
  refine ⟨by decide, by decide⟩

/-- C5 as amended: in state `Writing`, `push_encodable` invokes the item's
encode exactly when `encoded_len + used < capacity` (strictly), and fails
with `BufferFull` whenever `encoded_len + used ≥ capacity` — including the
exact-fill case. -/
theorem c5_push_encodable_strict_boundary (w : Option Unit) (bytes : WriteDrv.BufM)
    (item : WriteDrv.EncItem) :
    (item.encLen + bytes.data.length < bytes.cap →
      WriteDrv.pushEncodable (.writing w bytes) item
        = (if item.encodeOk
           then .okSt (.writing w ⟨bytes.cap, bytes.data ++ item.payload⟩)
           else .err .encode))
    ∧ (bytes.cap ≤ item.encLen + bytes.data.length →
      WriteDrv.pushEncodable (.writing w bytes) item = .err .bufferFull) := by
  refine ⟨fun h => ?_, fun h => ?_⟩
  · simp only [WriteDrv.pushEncodable]
    rw [if_pos (by omega)]
  · simp only [WriteDrv.pushEncodable]
    rw [if_neg (by omega)]

/-- Witness for C5 (amended): one used byte, item of length 2 into capacity
4 succeeds and appends the payload. -/
theorem c5_push_encodable_strict_boundary_witness :
    WriteDrv.pushEncodable (.writing none ⟨4, [1]⟩) ⟨2, [7, 7], true⟩
      = .okSt (.writing none ⟨4, [1, 7, 7]⟩) := by
  simpa using (c5_push_encodable_strict_boundary none ⟨4, [1]⟩ ⟨2, [7, 7], true⟩).1
    (by decide)

/-- C7 counterexample. The closure has already produced its result 42
(callback ran, result unconsumed); `cancel_with(7)` then overwrites it
unconditionally, and the future resolves with the synthetic 7, not the
closure's 42 — the claim says the real result wins. -/
theorem c7_cancel_with_overwrites_closure_result :
    Work.callbackRun (Work.Oneshot.new Nat) 42 = .ran ⟨none, none, some 42⟩
    ∧ (Work.pollOnce (Work.cancelWith (⟨none, none, some 42⟩ : Work.Oneshot Nat) 7)).1
      = .ready 7
    ∧ (7 : Nat) ≠ 42 := by
  refine ⟨by decide, by decide, by decide⟩

/-- C7 as amended: `cancel_with(x)` always installs `x`, overwriting any
closure result still sitting unconsumed in the result slot, so a consumer
polling after `cancel_with` observes `x`; the closure's actual output is
observed only when the future is polled before `cancel_with` runs. -/
theorem c7_cancel_with_always_installs {O : Type} (w : Work.Oneshot O) (x : O) :
    (Work.cancelWith w x).result = some x
    ∧ (Work.pollOnce (Work.cancelWith w x)).1 = .ready x
    ∧ (∀ (real : O) (w1 : Work.Oneshot O), Work.callbackRun w real = .ran w1 →
        (Work.pollOnce w1).1 = .ready real) := by
  refine ⟨rfl, rfl, fun real w1 h => ?_⟩
  cases hw : w.inner with
  | none => simp [Work.callbackRun, hw] at h
  | some u =>
    simp only [Work.callbackRun, hw] at h
    cases h
    rfl

/-- Witness for C7 (amended): the closure output 42, stored by the callback,
is observed by a poll that happens before any `cancel_with`. -/
theorem c7_cancel_with_always_installs_witness :
    (Work.pollOnce (⟨none, none, some 42⟩ : Work.Oneshot Nat)).1 = .ready 42 :=
  (c7_cancel_with_always_installs (Work.Oneshot.new Nat) 7).2.2 42
    ⟨none, none, some 42⟩ (by decide)

/-- C8 counterexample. After the future has returned `Ready(42)` (the
result slot was taken), polling the same future again returns `Pending` and
installs the waker — `WorkOnceFuture::poll` has no panic branch at all, so
the claimed panic never happens. -/
theorem c8_second_poll_returns_pending :
    (Work.pollOnce (⟨none, none, some 42⟩ : Work.Oneshot Nat)).1 = .ready 42
    ∧ Work.pollOnce ((Work.pollOnce (⟨none, none, some 42⟩ : Work.Oneshot Nat)).2)
      = (.pendingPoll, ⟨none, some (), none⟩) := by
  refine ⟨by decide, by decide⟩

/-- C8 as amended: once a poll has returned `Ready`, the result slot is
empty and every further poll of the same future returns `Pending` (it never
panics and never yields a second result). -/
theorem c8_poll_after_ready_is_pending {O : Type} (w w1 : Work.Oneshot O) (r : O)
    (h : Work.pollOnce w = (.ready r, w1)) :
    w1.result = none ∧ (Work.pollOnce w1).1 = .pendingPoll := by
  cases hw : w.result with
  | none => simp [Work.pollOnce, hw] at h
  | some r0 =>
    simp only [Work.pollOnce, hw] at h
    obtain ⟨h1, h2⟩ := Prod.mk.injEq .. ▸ h
    cases h2
    exact ⟨rfl, rfl⟩

/-- Witness for C8 (amended) after resolving with 3. -/
theorem c8_poll_after_ready_is_pending_witness :
    (⟨none, none, none⟩ : Work.Oneshot Nat).result = none
    ∧ (Work.pollOnce (⟨none, none, none⟩ : Work.Oneshot Nat)).1 = .pendingPoll :=
  c8_poll_after_ready_is_pending ⟨none, none, some 3⟩ ⟨none, none, none⟩ 3 (by decide)

/-- C9 counterexample. A wait pool holding a stored, never-consumed result
(`Ok(signalled)`): the claim says `restart` must return `Err(InProgress)`,
but the code consumes the stored result and starts a new wait. -/
theorem c9_restart_succeeds_on_unconsumed_result :
    Wait.restart ⟨true, ⟨none, some (.ok ())⟩⟩ = .ok ⟨true, ⟨none, none⟩⟩
    ∧ Wait.restart ⟨true, ⟨none, some (.ok ())⟩⟩ ≠ .error .inProgress := by
  refine ⟨by decide, by decide⟩

/-- C9 as amended: `start` panics on a second start, and `restart` returns
`Err(InProgress)` exactly when no result is stored (the previous wait has
not completed yet); when a result is stored — observed or not — `restart`
consumes it and begins a new wait. -/
theorem c9_start_restart_discipline (p p1 : Wait.WaitPool) :
    (Wait.start p = .ok p1 → Wait.start p1 = .panicked)
    ∧ (p.shared.result = none → Wait.restart p = .error .inProgress)
    ∧ (∀ r, p.shared.result = some r →
        Wait.restart p = .ok { p with shared := { p.shared with result := none } }) := by
  refine ⟨fun h => ?_, fun h => ?_, fun r h => ?_⟩
  · cases hp : p.started with
    | true => simp [Wait.start, hp] at h
    | false =>
      simp only [Wait.start, hp] at h
      cases h
      simp [Wait.start]
  · simp [Wait.restart, h]
  · simp [Wait.restart, h]

/-- Witness for C9 (amended): double-start panics; restart errors
`InProgress` on an empty result slot and succeeds on a stored timeout. -/
theorem c9_start_restart_discipline_witness :
    Wait.start ⟨true, ⟨none, none⟩⟩ = .panicked
    ∧ Wait.restart ⟨false, ⟨none, none⟩⟩ = .error .inProgress
    ∧ Wait.restart ⟨true, ⟨some (), some (.error .timeout)⟩⟩
      = .ok ⟨true, ⟨some (), none⟩⟩ :=
  ⟨(c9_start_restart_discipline ⟨false, ⟨none, none⟩⟩ ⟨true, ⟨none, none⟩⟩).1 (by decide),
   (c9_start_restart_discipline ⟨false, ⟨none, none⟩⟩ ⟨true, ⟨none, none⟩⟩).2.1 (by decide),
   (c9_start_restart_discipline ⟨true, ⟨some (), some (.error .timeout)⟩⟩
     ⟨true, ⟨none, none⟩⟩).2.2 (.error .timeout) (by decide)⟩

/-- C10. Wait-pool result atomicity: when a result (`Ok(signalled)` or
`Err(Timeout)`) is stored and unconsumed, `cancel()` leaves the whole pool
state unchanged — `maybe_wake_with` puts the old result back — and a
consumer polling afterwards still observes the original result;
`Err(Cancelled)` is installed only when no result is present at
cancellation time. -/
theorem c10_cancel_preserves_stored_result (p : Wait.WaitPool) (r : Wait.WaitResult) :
    (p.shared.result = some r →
      Wait.cancel p = p
      ∧ (Wait.pollWait (Wait.cancel p).shared).1 = .ready r)
    ∧ (p.shared.result = none →
      (Wait.cancel p).shared.result = some (.error .cancelled)) := by
  refine ⟨fun h => ?_, fun h => ?_⟩
  · have hshared : Wait.maybeWakeWith p.shared (.error .cancelled) = p.shared := by
      simp only [Wait.maybeWakeWith, h]
      rw [← h]
    constructor
    · simp [Wait.cancel, hshared]
    · simp [Wait.cancel, hshared, Wait.pollWait, h]
  · simp [Wait.cancel, Wait.maybeWakeWith, h]

/-- Witness for C10: a stored `Ok` survives `cancel` and is still observed;
an empty slot receives `Err(Cancelled)`. -/
theorem c10_cancel_preserves_stored_result_witness :
    (Wait.cancel ⟨true, ⟨some (), some (.ok ())⟩⟩ = ⟨true, ⟨some (), some (.ok ())⟩⟩
      ∧ (Wait.pollWait (Wait.cancel ⟨true, ⟨some (), some (.ok ())⟩⟩).shared).1
        = .ready (.ok ()))
    ∧ (Wait.cancel ⟨true, ⟨some (), none⟩⟩).shared.result = some (.error .cancelled) :=
  ⟨(c10_cancel_preserves_stored_result ⟨true, ⟨some (), some (.ok ())⟩⟩ (.ok ())).1
      (by decide),
   (c10_cancel_preserves_stored_result ⟨true, ⟨some (), none⟩⟩ (.ok ())).2 (by decide)⟩

end Msft


namespace Msft.Device

theorem countSignal_append (c : Nat) (xs ys : List TrackOutput) :
    countSignal c (xs ++ ys) = countSignal c xs + countSignal c ys := by
  simp [countSignal, List.filter_append]

theorem countSignal_nil (c : Nat) : countSignal c [] = 0 := rfl

theorem countSignal_emit (c : Nat) (p : Port) (i : UsbVidPid) (ch : Nat) :
    countSignal c [TrackOutput.emit p i ch] = 0 := by
  simp [countSignal]

theorem countSignal_emitErr (c : Nat) : countSignal c [TrackOutput.emitErr] = 0 := by
  simp [countSignal]

theorem countSignal_signal (c c0 : Nat) :
    countSignal c [TrackOutput.signal c0] = if c0 = c then 1 else 0 := by
  by_cases h : c0 = c <;> simp [countSignal, h]

theorem trackStep_ids (scan : Port → Except Unit UsbVidPid) (st : TrackState)
    (ev : PlugEvent) : (trackStep scan st ev).1.ids = st.ids := by
  cases ev with
  | plug port =>
    cases hscan : scan port with
    | error e => simp [trackStep, hscan]
    | ok id =>
      cases hfind : st.ids.find? (fun t => t = id) with
      | none => simp [trackStep, hscan, hfind]
      | some idF => simp [trackStep, hscan, hfind]
  | unplug port =>
    cases hfind : st.cache.find? (fun e => e.1 = port) with
    | none => simp [trackStep, cacheRemove, hfind]
    | some e => simp [trackStep, cacheRemove, hfind]

theorem trackStep_emitProj (scan : Port → Except Unit UsbVidPid) (st : TrackState)
    (ev : PlugEvent) :
    ((trackStep scan st ev).2).filterMap emitProj = (plugProj scan st.ids ev).toList := by
  cases ev with
  | plug port =>
    cases hscan : scan port with
    | error e => simp [trackStep, hscan, plugProj, emitProj]
    | ok id =>
      cases hfind : st.ids.find? (fun t => t = id) with
      | none =>
        have hmem : id ∉ st.ids := by
          intro hmem
          have := List.find?_eq_none.mp hfind id hmem
          simp at this
        simp [trackStep, hscan, hfind, plugProj, hmem]
      | some idF =>
        have hid : idF = id := by
          have := List.find?_some hfind
          simpa using this
        have hmem : id ∈ st.ids := hid ▸ List.mem_of_find?_eq_some hfind
        subst hid
        simp [trackStep, hscan, hfind, plugProj, emitProj, hmem]
  | unplug port =>
    cases hfind : st.cache.find? (fun e => e.1 = port) with
    | none => simp [trackStep, cacheRemove, hfind, plugProj]
    | some e => simp [trackStep, cacheRemove, hfind, plugProj, emitProj]

theorem chanValues_filter_sublist (st : TrackState) (port : Port) :
    List.Sublist ((st.cache.filter (fun e => ¬ e.1 = port)).map (fun e => e.2))
      (chanValues st) :=
  List.Sublist.map (fun e => e.2) (List.filter_sublist st.cache)

theorem trackInv_step (scan : Port → Except Unit UsbVidPid) (st : TrackState)
    (ev : PlugEvent) (outs : List TrackOutput) (hinv : TrackInv st outs) :
    TrackInv (trackStep scan st ev).1 (outs ++ (trackStep scan st ev).2) := by
  obtain ⟨h1, h2, h3, h4, h5, h6⟩ := hinv
  cases ev with
  | plug port =>
    cases hscan : scan port with
    | error e =>
      simp only [trackStep, hscan]
      refine ⟨h1, h2, ?_, ?_, ?_, ?_⟩
      · intro c; rw [countSignal_append, countSignal_emitErr]; exact h3 c
      · intro c hc; rw [countSignal_append, countSignal_emitErr] at hc
        exact h4 c (by omega)
      · intro c hc
        obtain ⟨p, i, hmem⟩ := h5 c hc
        exact ⟨p, i, List.mem_append_left _ hmem⟩
      · intro c hc; rw [countSignal_append, countSignal_emitErr] at hc
        obtain ⟨p, i, hmem⟩ := h6 c (by omega)
        exact ⟨p, i, List.mem_append_left _ hmem⟩
    | ok id =>
      cases hfind : st.ids.find? (fun t => t = id) with
      | none =>
        simp only [trackStep, hscan, hfind, List.append_nil]
        exact ⟨h1, h2, h3, h4, h5, h6⟩
      | some idF =>
        simp only [trackStep, hscan, hfind]
        have hsub := chanValues_filter_sublist st port
        have hmemsub : ∀ c, c ∈ (st.cache.filter (fun e => ¬ e.1 = port)).map
            (fun e => e.2) → c ∈ chanValues st := fun c hc => hsub.subset hc
        have hfresh : st.nextChan ∉ (st.cache.filter (fun e => ¬ e.1 = port)).map
            (fun e => e.2) := by
          intro hmem
          exact absurd (h2 _ (hmemsub _ hmem)) (by omega)
        simp only [TrackInv, chanValues, cacheInsert, List.map_cons]
        refine ⟨?_, ?_, ?_, ?_, ?_, ?_⟩
        · exact List.nodup_cons.mpr ⟨hfresh, h1.sublist hsub⟩
        · intro c hc
          rcases List.mem_cons.mp hc with rfl | hc
          · omega
          · have := h2 c (hmemsub c hc); omega
        · intro c; rw [countSignal_append, countSignal_emit]; exact h3 c
        · intro c hc
          rw [countSignal_append, countSignal_emit] at hc
          obtain ⟨hlt, hnotmem⟩ := h4 c (by omega)
          refine ⟨by omega, ?_⟩
          rw [List.mem_cons]
          push_neg
          exact ⟨by omega, fun hc2 => hnotmem (hmemsub c hc2)⟩
        · intro c hc
          rcases List.mem_cons.mp hc with rfl | hc
          · exact ⟨port, idF, List.mem_append_right _ (by simp)⟩
          · obtain ⟨p, i, hmem⟩ := h5 c (hmemsub c hc)
            exact ⟨p, i, List.mem_append_left _ hmem⟩
        · intro c hc
          rw [countSignal_append, countSignal_emit] at hc
          obtain ⟨p, i, hmem⟩ := h6 c (by omega)
          exact ⟨p, i, List.mem_append_left _ hmem⟩
  | unplug port =>
    cases hfind : st.cache.find? (fun e => e.1 = port) with
    | none =>
      simp only [trackStep, cacheRemove, hfind, List.append_nil]
      exact ⟨h1, h2, h3, h4, h5, h6⟩
    | some e =>
      simp only [trackStep, cacheRemove, hfind]
      have hekey : e.1 = port := by
        have := List.find?_some hfind
        simpa using this
      have hemem : e ∈ st.cache := List.mem_of_find?_eq_some hfind
      have hvmem : e.2 ∈ chanValues st := by
        simp only [chanValues, List.mem_map]
        exact ⟨e, hemem, rfl⟩
      have hsub := chanValues_filter_sublist st port
      have hmemsub : ∀ c, c ∈ (st.cache.filter (fun e => ¬ e.1 = port)).map
          (fun e => e.2) → c ∈ chanValues st := fun c hc => hsub.subset hc
      have hgone : e.2 ∉ (st.cache.filter (fun e1 => ¬ e1.1 = port)).map
          (fun e1 => e1.2) := by
        intro hmem
        simp only [List.mem_map, List.mem_filter] at hmem
        obtain ⟨e2, ⟨he2mem, he2key⟩, he2val⟩ := hmem
        have := List.inj_on_of_nodup_map h1 he2mem hemem he2val
        rw [this] at he2key
        simp [hekey] at he2key
      have hsig0 : countSignal e.2 outs = 0 := by
        by_contra hne
        exact absurd hvmem (h4 e.2 (by omega)).2
      simp only [TrackInv, chanValues]
      refine ⟨h1.sublist hsub, ?_, ?_, ?_, ?_, ?_⟩
      · intro c hc; exact h2 c (hmemsub c hc)
      · intro c
        rw [countSignal_append, countSignal_signal]
        by_cases hce : e.2 = c
        · subst hce; rw [hsig0]; simp
        · simp only [if_neg hce]
          have := h3 c; omega
      · intro c hc
        rw [countSignal_append, countSignal_signal] at hc
        by_cases hce : e.2 = c
        · subst hce
          exact ⟨h2 _ hvmem, hgone⟩
        · rw [if_neg hce] at hc
          obtain ⟨hlt, hnm⟩ := h4 c (by omega)
          exact ⟨hlt, fun hmem => hnm (hmemsub c hmem)⟩
      · intro c hc
        obtain ⟨p, i, hmem⟩ := h5 c (hmemsub c hc)
        exact ⟨p, i, List.mem_append_left _ hmem⟩
      · intro c hc
        rw [countSignal_append, countSignal_signal] at hc
        by_cases hce : e.2 = c
        · subst hce
          obtain ⟨p, i, hmem⟩ := h5 e.2 hvmem
          exact ⟨p, i, List.mem_append_left _ hmem⟩
        · rw [if_neg hce] at hc
          obtain ⟨p, i, hmem⟩ := h6 c (by omega)
          exact ⟨p, i, List.mem_append_left _ hmem⟩

end Msft.Device

namespace Msft.Device

theorem trackInv_init (ids : List UsbVidPid) : TrackInv (TrackState.init ids) [] := by
  refine ⟨List.nodup_nil, ?_, ?_, ?_, ?_, ?_⟩ <;>
    simp [chanValues, TrackState.init, countSignal_nil, countSignal]

theorem trackInv_run (scan : Port → Except Unit UsbVidPid) :
    ∀ (evs : List PlugEvent) (st : TrackState) (outs : List TrackOutput),
      TrackInv st outs →
      TrackInv (runTrack scan st evs).1 (outs ++ (runTrack scan st evs).2) := by
  intro evs
  induction evs with
  | nil => intro st outs hinv; simpa [runTrack] using hinv
  | cons ev evs ih =>
    intro st outs hinv
    have h1 := trackInv_step scan st ev outs hinv
    rcases hstep : trackStep scan st ev with ⟨st1, outs1⟩
    rw [hstep] at h1
    have h2 := ih st1 (outs ++ outs1) h1
    rcases hrun : runTrack scan st1 evs with ⟨st2, rest⟩
    rw [hrun] at h2
    simp only [runTrack, hstep, hrun]
    rw [← List.append_assoc]
    exact h2

theorem runTrack_ids (scan : Port → Except Unit UsbVidPid) :
    ∀ (evs : List PlugEvent) (st : TrackState),
      (runTrack scan st evs).1.ids = st.ids := by
  intro evs
  induction evs with
  | nil => intro st; simp [runTrack]
  | cons ev evs ih =>
    intro st
    have hids := trackStep_ids scan st ev
    rcases hstep : trackStep scan st ev with ⟨st1, outs1⟩
    rw [hstep] at hids
    rcases hrun : runTrack scan st1 evs with ⟨st2, rest⟩
    have h2 := ih st1
    rw [hrun] at h2
    simp only [runTrack, hstep, hrun]
    rw [h2, ← hids]

theorem runTrack_emitProj (scan : Port → Except Unit UsbVidPid) :
    ∀ (evs : List PlugEvent) (st : TrackState),
      ((runTrack scan st evs).2).filterMap emitProj
        = evs.filterMap (plugProj scan st.ids) := by
  intro evs
  induction evs with
  | nil => intro st; simp [runTrack]
  | cons ev evs ih =>
    intro st
    have hstepproj := trackStep_emitProj scan st ev
    have hids := trackStep_ids scan st ev
    rcases hstep : trackStep scan st ev with ⟨st1, outs1⟩
    rw [hstep] at hstepproj hids
    have h2 := ih st1
    rcases hrun : runTrack scan st1 evs with ⟨st2, rest⟩
    rw [hrun] at h2
    simp only [runTrack, hstep, hrun]
    rw [List.filterMap_append, hstepproj, h2, hids]
    cases hpe : plugProj scan st.ids ev <;> simp [List.filterMap_cons, hpe]

end Msft.Device


namespace Msft

/-- C6. Plug-event tracker exactly-once: over every upstream event sequence
and filter set, (a) the tracker emits exactly one `TrackedPort` per
`Plug(port)` whose scanned VID/PID is in the filter set, in order (and
nothing for other plugs); (b) no unplug channel is ever signalled more than
once; (c) every signalled channel belongs to a previously emitted
`TrackedPort`; (d) an `Unplug` of an untracked port changes nothing and
produces no output; (e) an `Unplug` of a tracked port removes the port's
cached sender and signals exactly it once. -/
theorem c6_tracker_exactly_once (scan : Device.Port → Except Unit Device.UsbVidPid)
    (ids : List Device.UsbVidPid) (events : List Device.PlugEvent) :
    (((Device.runTrack scan (Device.TrackState.init ids) events).2).filterMap
        Device.emitProj
      = events.filterMap (Device.plugProj scan ids))
    ∧ (∀ c, Device.countSignal c
        (Device.runTrack scan (Device.TrackState.init ids) events).2 ≤ 1)
    ∧ (∀ c, 0 < Device.countSignal c
          (Device.runTrack scan (Device.TrackState.init ids) events).2 →
        ∃ p i, Device.TrackOutput.emit p i c
          ∈ (Device.runTrack scan (Device.TrackState.init ids) events).2)
    ∧ (∀ (st : Device.TrackState) (p : Device.Port),
        st.cache.find? (fun e1 => e1.1 = p) = none →
        Device.trackStep scan st (.unplug p) = (st, []))
    ∧ (∀ (st : Device.TrackState) (p : Device.Port) (e : Device.Port × Nat),
        st.cache.find? (fun e1 => e1.1 = p) = some e →
        Device.trackStep scan st (.unplug p)
          = ({ st with cache := st.cache.filter (fun e1 => ¬ e1.1 = p) },
             [.signal e.2])) := by
  have hinv := Device.trackInv_run scan events (Device.TrackState.init ids) []
    (Device.trackInv_init ids)
  rw [List.nil_append] at hinv
  obtain ⟨_, _, h3, _, _, h6⟩ := hinv
  refine ⟨?_, h3, h6, ?_, ?_⟩
  · have := Device.runTrack_emitProj scan events (Device.TrackState.init ids)
    simpa [Device.TrackState.init] using this
  · intro st p h
    simp [Device.trackStep, Device.cacheRemove, h]
  · intro st p e h
    simp [Device.trackStep, Device.cacheRemove, h]

/-- Witness for C6: an unplug of an untracked port produces no output; an
unplug of the tracked port "COM4" signals exactly its cached channel. -/
theorem c6_tracker_exactly_once_witness :
    Device.trackStep (fun _ => Except.ok ⟨0x2FE3, 1⟩) ⟨[⟨0x2FE3, 1⟩], [], 0⟩
      (.unplug "COM9") = (⟨[⟨0x2FE3, 1⟩], [], 0⟩, [])
    ∧ Device.trackStep (fun _ => Except.ok ⟨0x2FE3, 1⟩)
        ⟨[⟨0x2FE3, 1⟩], [("COM4", 5)], 6⟩ (.unplug "COM4")
      = (⟨[⟨0x2FE3, 1⟩], [], 6⟩, [.signal 5]) :=
  ⟨(c6_tracker_exactly_once (fun _ => Except.ok ⟨0x2FE3, 1⟩) [⟨0x2FE3, 1⟩]
      []).2.2.2.1 ⟨[⟨0x2FE3, 1⟩], [], 0⟩ "COM9" (by decide),
   (c6_tracker_exactly_once (fun _ => Except.ok ⟨0x2FE3, 1⟩) [⟨0x2FE3, 1⟩]
      []).2.2.2.2 ⟨[⟨0x2FE3, 1⟩], [("COM4", 5)], 6⟩ "COM4" ("COM4", 5) (by decide)⟩

end Msft
